import Mathlib

/-!
Shallow embedding of the CSS_project bike-sharing data pipeline
(`src/etl/snapshots_to_trips.py`, `src/etl/merge_hourly_features.py`,
`src/features/gtfs_to_station_hour.py`, `scripts/build_datasets.py`,
`scripts/analysis_suite.py`, `src/etl/bicincitta_fetch_json.py`),
with theorems settling the behavioural claims about it.

Modelling conventions:
* pandas DataFrames are lists of rows (structures or tuples); row order in
  a groupby result is immaterial to every property proved here.
* `groupby(keys).agg(sum)` is `groupSum`, `groupby(keys).size()` is
  `groupSum` over constant weight 1.
* calendar dates are day numbers (`Nat`) under any fixed order-preserving
  encoding of real dates; the weekday of day `d` is `d % 7` with day 0 a
  Monday (faithful because `pd.to_datetime` on `%Y%m%d` strings is
  monotone and `Timestamp.weekday` has Monday = 0).
* machine floats that only carry exact small integers and halves are
  modelled as `Int` / `Rat`; a nullable column is `Option`.
-/

namespace CSS

/-! ## Generic groupby-sum (pandas `groupby(...).agg(..., "sum")` / `.size()`) -/

/-- The distinct keys of a keyed list, in order of first appearance
(last-occurrence order would prove the same facts). -/
def keysOf {κ : Type} [DecidableEq κ] (l : List (κ × Int)) : List κ :=
  (l.map Prod.fst).dedup

/-- Sum of the values attached to key `k`. -/
def sumKey {κ : Type} [DecidableEq κ] (l : List (κ × Int)) (k : κ) : Int :=
  ((l.filter fun p => p.1 = k).map Prod.snd).sum

/-- Model of `groupby(key).agg(value = sum)`: one row per distinct key,
carrying the sum of the values in its group. -/
def groupSum {κ : Type} [DecidableEq κ] (l : List (κ × Int)) : List (κ × Int) :=
  (keysOf l).map fun k => (k, sumKey l k)

/-- Sum of the values on the rows whose key satisfies `p`. -/
def sumP {κ : Type} [DecidableEq κ] (l : List (κ × Int)) (p : κ → Bool) : Int :=
  ((l.filter fun x => p x.1).map Prod.snd).sum

/-! ## `src/etl/snapshots_to_trips.py` (trip inference) -/

/-- One snapshot-derived row entering the hourly groupby: station, service
date, hour of day, and the pickup count already derived from the bike-count
delta (lines 20–31 of `snapshots_to_trips.py`). -/
structure SnapRow where
  station_id : Nat
  date : Nat
  hour : Nat
  pickup : Int
  deriving DecidableEq, Repr

/-- Lines 24–25: `df.loc[df["delta"].abs() > 6, "delta"] = 0` — a bike-count
change larger than 6 in absolute value is treated as rebalancing and zeroed. -/
def rebalanced (delta : Int) : Int :=
  if 6 < delta.natAbs then 0 else delta

/-- Line 27: `df["pickup"] = (-df["delta"]).clip(lower=0)` applied to the
(rebalancing-filtered) delta. -/
def pickup (delta : Int) : Int :=
  max (-(rebalanced delta)) 0

/-- Line 28: the source column named `return`:
`df["return"] = (df["delta"]).clip(lower=0)`. -/
def ret (delta : Int) : Int :=
  max (rebalanced delta) 0

/-- Line 33: `H = df.groupby(["station_id","date","hour"]).agg(trips_hour=("pickup","sum"))`. -/
def station_hour (rows : List SnapRow) : List ((Nat × Nat × Nat) × Int) :=
  groupSum (rows.map fun r => ((r.station_id, r.date, r.hour), r.pickup))

/-- Line 34: `D = H.groupby(["station_id","date"]).agg(trips_day=("trips_hour","sum"))`. -/
def station_day (rows : List SnapRow) : List ((Nat × Nat) × Int) :=
  groupSum ((station_hour rows).map fun p => ((p.1.1, p.1.2.1), p.2))

/-! ## `src/features/gtfs_to_station_hour.py` (GTFS feature builder) -/

/-- One row of GTFS `calendar.txt`; weekday flags are the source's 0/1
integers. -/
structure CalRow where
  service_id : Nat
  monday : Nat
  tuesday : Nat
  wednesday : Nat
  thursday : Nat
  friday : Nat
  saturday : Nat
  sunday : Nat
  start_date : Nat
  end_date : Nat
  deriving DecidableEq, Repr

/-- One row of `calendar_dates.txt` (`exception_type` 1 = add, 2 = remove). -/
structure CaldRow where
  service_id : Nat
  date : Nat
  exception_type : Nat
  deriving DecidableEq, Repr

/-- Column lookup `cal[weekday]` for
`weekday = ["monday",...,"sunday"][day.weekday()]`; here `w = day % 7`,
Monday = 0 (line 50). -/
def weekdayFlag (r : CalRow) (w : Nat) : Nat :=
  match w with
  | 0 => r.monday
  | 1 => r.tuesday
  | 2 => r.wednesday
  | 3 => r.thursday
  | 4 => r.friday
  | 5 => r.saturday
  | _ => r.sunday

/-- Lines 49–59 (`active_services_on`) as a membership test: `sid` belongs to
`set(base).union(set(add)).difference(set(rem))`. -/
def active_services_on (cal : List CalRow) (cald : List CaldRow) (day sid : Nat) : Bool :=
  let base := cal.any fun r =>
    decide (r.service_id = sid) && decide (weekdayFlag r (day % 7) = 1) &&
    decide (r.start_date ≤ day) && decide (day ≤ r.end_date)
  let add := cald.any fun e =>
    decide (e.service_id = sid) && decide (e.date = day) && decide (e.exception_type = 1)
  let rem := cald.any fun e =>
    decide (e.service_id = sid) && decide (e.date = day) && decide (e.exception_type = 2)
  (base || add) && !rem

/-- The activity rule exactly as the spec claim words it: active iff (a) the
weekly pattern flags the weekday and the date is in range and no remove
exception exists, OR (b) an add exception exists regardless of anything else.
Stated only for comparison with `active_services_on`. -/
def active_claim_rule (cal : List CalRow) (cald : List CaldRow) (day sid : Nat) : Bool :=
  let base := cal.any fun r =>
    decide (r.service_id = sid) && decide (weekdayFlag r (day % 7) = 1) &&
    decide (r.start_date ≤ day) && decide (day ≤ r.end_date)
  let add := cald.any fun e =>
    decide (e.service_id = sid) && decide (e.date = day) && decide (e.exception_type = 1)
  let rem := cald.any fun e =>
    decide (e.service_id = sid) && decide (e.date = day) && decide (e.exception_type = 2)
  (base && !rem) || add

/-- Numeric value of a decimal digit character. -/
def digitVal (c : Char) : Nat := c.toNat - 48

/-- The anchored regex of line 82, over the string's characters:
`^\d{1,2}:\d{2}(:\d{2})?$`. -/
def matchesTimeRe : List Char → Bool
  | [a, ':', b, c] => a.isDigit && b.isDigit && c.isDigit
  | [a, a2, ':', b, c] => a.isDigit && a2.isDigit && b.isDigit && c.isDigit
  | [a, ':', b, c, ':', e, f] =>
    a.isDigit && b.isDigit && c.isDigit && e.isDigit && f.isDigit
  | [a, a2, ':', b, c, ':', e, f] =>
    a.isDigit && a2.isDigit && b.isDigit && c.isDigit && e.isDigit && f.isDigit
  | _ => false

/-- Value of `int(h[0])` at line 83: the digits before the first colon. -/
def hourDigits : List Char → Nat
  | a :: ':' :: _ => digitVal a
  | a :: a2 :: ':' :: _ => 10 * digitVal a + digitVal a2
  | _ => 0

/-- Lines 81–84: a missing (`NaN`) departure time is removed by `notna()`, a
string not matching the regex is removed by `str.match`, and a matching one
yields `hour = int(h[0]) % 48` (overnight hours 24–47 supported). -/
def parseDeparture : Option String → Option Nat
  | none => none
  | some s =>
    if matchesTimeRe s.toList then some (hourDigits s.toList % 48) else none

/-- Projection of `stop_times` rows to `(stop_id, hour)` after the notna and
regex filters of lines 81–84. -/
def sttParsed (l : List (Nat × Option String)) : List (Nat × Nat) :=
  l.filterMap fun p => (parseDeparture p.2).map fun h => (p.1, h)

/-- Model of `groupby(keys).size()`: counting is summing the constant 1. -/
def groupCount {κ : Type} [DecidableEq κ] (ks : List κ) : List (κ × Int) :=
  groupSum (ks.map fun k => (k, 1))

/-- One row of GTFS `trips.txt` (after the line-30 column selection). -/
structure TripRow where
  trip_id : Nat
  route_id : Nat
  service_id : Nat
  deriving DecidableEq, Repr

/-- One row of GTFS `stop_times.txt` (after the line-31 column selection);
`departure_time` is nullable. -/
structure SttRow where
  trip_id : Nat
  stop_id : Nat
  departure_time : Option String
  deriving DecidableEq, Repr

/-- One row of the per-day aggregate `agg` of lines 88–90. -/
structure FeatRow where
  station_id : Nat
  date : Nat
  hour : Nat
  dep : Int
  deriving DecidableEq, Repr

/-- One GTFS feed partition as loaded by `load_gtfs_folder`, together with its
station-to-stop proximity pairs (`near_maps`, line 46): `near` holds the
`(station_id, stop_id)` pairs of the 300 m spatial join, taken as given since
buffer geometry is floating-point. -/
structure GtfsPart where
  cal : List CalRow
  cald : List CaldRow
  trips : List TripRow
  stt : List SttRow
  near : List (Nat × Nat)
  deriving DecidableEq, Repr

/-- Lines 73–91, the body of the date loop for one partition: filter trips by
active service, inner-join `stop_times` on `trip_id`, parse departure times,
count departures per (stop, hour), map stops to stations within 300 m and sum
per (station, hour); every produced row is stamped `date := day` (line 90). -/
def rowsForDay (g : GtfsPart) (day : Nat) : List FeatRow :=
  let tripsToday := g.trips.filter fun t => active_services_on g.cal g.cald day t.service_id
  let sttToday : List (Nat × Option String) :=
    g.stt.flatMap fun r =>
      (tripsToday.filter fun t => decide (t.trip_id = r.trip_id)).map fun _ =>
        (r.stop_id, r.departure_time)
  let dep := groupCount (sttParsed sttToday)
  let depNear : List ((Nat × Nat) × Int) :=
    dep.flatMap fun p =>
      (g.near.filter fun n => decide (n.2 = p.1.1)).map fun n => ((n.1, p.1.2), p.2)
  (groupSum depNear).map fun p => ⟨p.1.1, day, p.1.2, p.2⟩

/-- Result of `pd.Series.min()` over a column; `none` on an empty table. -/
def colMin : List Nat → Option Nat
  | [] => none
  | x :: xs => some (xs.foldl Nat.min x)

/-- Result of `pd.Series.max()` over a column; `none` on an empty table. -/
def colMax : List Nat → Option Nat
  | [] => none
  | x :: xs => some (xs.foldl Nat.max x)

/-- Sequencing of a list of optional values, `none` if any is missing. -/
def optList {α : Type} : List (Option α) → Option (List α)
  | [] => some []
  | none :: _ => none
  | some x :: rest => (optList rest).map fun xs => x :: xs

/-- Lines 62–67 (`gtfs_date_range`): each partition contributes the min of its
`calendar.start_date` and the max of its `calendar.end_date`; the global
range is `(max starts, min ends)`. -/
def gtfs_date_range (parts : List GtfsPart) : Option (Nat × Nat) :=
  match optList (parts.map fun g => colMin (g.cal.map CalRow.start_date)),
        optList (parts.map fun g => colMax (g.cal.map CalRow.end_date)) with
  | some starts, some ends =>
    match colMax starts, colMin ends with
    | some d0, some d1 => some (d0, d1)
    | _, _ => none
  | _, _ => none

/-- The inclusive day list `pd.date_range(d0, d1, freq="D")` of line 70. -/
def date_range_list (d0 d1 : Nat) : List Nat :=
  (List.range (d1 + 1 - d0)).map fun i => d0 + i

/-- Lines 69–93: the feature rows generated by the full date loop over all
partitions. -/
def allFeatureRows (parts : List GtfsPart) : List FeatRow :=
  match gtfs_date_range parts with
  | none => []
  | some (d0, d1) =>
    (date_range_list d0 d1).flatMap fun day => parts.flatMap fun g => rowsForDay g day

/-! ## `src/etl/merge_hourly_features.py` (hourly model dataset) -/

/-- One row of the outcome table `station_hour.parquet`. -/
structure HRow where
  station_id : Nat
  date : Nat
  hour : Nat
  trips_hour : Int
  deriving DecidableEq, Repr

/-- One row of `gtfs_station_hour.parquet`. -/
structure XgRow where
  station_id : Nat
  date : Nat
  hour : Nat
  dep_hour_total_300m : Int
  deriving DecidableEq, Repr

/-- One row of `station_index.csv`; only the key matters here, coordinates
are carried as opaque integers. -/
structure SRow where
  station_id : Nat
  lat : Int
  lon : Int
  deriving DecidableEq, Repr

/-- Model of pandas `A.merge(B, on = keys, how = "left")`: every left row
appears once per matching right row, or once with nulls when nothing
matches. -/
def leftMerge {α β : Type} (A : List α) (B : List β) (keyEq : α → β → Bool) :
    List (α × Option β) :=
  A.flatMap fun a =>
    match B.filter (keyEq a) with
    | [] => [(a, none)]
    | bs => bs.map fun b => (a, some b)

/-- Lines 8–9 of `merge_hourly_features.py`: the hourly outcome is merged with
the GTFS station-hour table on `["station_id","hour"]` — not on `date` — and
then with the station index on `station_id`, both left joins. -/
def model_hour_dataset (H : List HRow) (Xg : List XgRow) (S : List SRow) :
    List ((HRow × Option XgRow) × Option SRow) :=
  leftMerge
    (leftMerge H Xg fun h x =>
      decide (h.station_id = x.station_id) && decide (h.hour = x.hour))
    S
    (fun hx srow => decide (hx.1.station_id = srow.station_id))

/-- The `(station_id, date, hour)` key of a merged row; `date` is the outcome
table's date column. -/
def outKey (r : (HRow × Option XgRow) × Option SRow) : Nat × Nat × Nat :=
  (r.1.1.station_id, r.1.1.date, r.1.1.hour)

/-! ## `scripts/build_datasets.py` (`build_spatial` buffer analysis) -/

/-- One stop row of `gstops_routes` (line 121): `n_routes_at_stop` has already
been filled with 0 where the route-count lookup found nothing. -/
structure StopRow where
  stop_id : Nat
  n_routes_at_stop : Nat
  deriving DecidableEq, Repr

/-- Line 131: `gpd.sjoin(gstations, ring, how="left", predicate="intersects")`.
The geometric test "the buffered stop intersects the station point" is the
abstract parameter `within` (buffer geometry is floating-point and outside the
embedding). A station with no intersecting buffer keeps one row whose
right-hand columns are null, as geopandas produces for a left join. -/
def sjoin_left (stations : List Nat) (stops : List StopRow)
    (within : Nat → StopRow → Bool) : List (Nat × Option Nat) :=
  stations.flatMap fun st =>
    match (stops.filter (within st)).map StopRow.n_routes_at_stop with
    | [] => [(st, none)]
    | ns => ns.map fun n => (st, some n)

/-- Lines 132–136: `joined.groupby("station_id").agg(stops_in_buf =
("n_routes_at_stop", "size"), routes_in_buf = ("n_routes_at_stop", "sum"))` —
`size` counts every row of the group, a null row included, while `sum` skips
nulls. Output: `(station_id, stops_<r>m, routes_<r>m)`. -/
def spatial_agg (stations : List Nat) (stops : List StopRow)
    (within : Nat → StopRow → Bool) : List (Nat × Nat × Nat) :=
  let joined := sjoin_left stations stops within
  ((joined.map Prod.fst).dedup).map fun st =>
    let grp := joined.filter fun p => decide (p.1 = st)
    (st, grp.length, (grp.map fun p => p.2.getD 0).sum)

/-! ## `scripts/analysis_suite.py` (`run_maps`, intermodality index) -/

/-- One station row of `station_accessibility_2025.geojson` as `run_maps`
reads it: the two index inputs may be null. -/
structure AccRow where
  stops : Option Rat
  routes : Option Rat
  deriving DecidableEq, Repr

/-- Line 284: `g[idx] = g[s_col].fillna(0) + 0.5 * g[r_col].fillna(0)`. -/
def idx_intermodal (r : AccRow) : Rat :=
  r.stops.getD 0 + (1 / 2) * r.routes.getD 0

/-! ## `src/etl/bicincitta_fetch_json.py` (live-status poller) -/

/-- A parsed station record (lines 36–50); `lat`/`lon` keep their validated
textual form, floats being outside the embedding. -/
structure StationRec where
  station_id : String
  name : String
  lat : String
  lon : String
  bikes : Int
  docks : Int
  deriving DecidableEq, Repr

/-- Python `str.strip()`. -/
def pyStrip (s : String) : String :=
  ⟨((s.data.dropWhile Char.isWhitespace).reverse.dropWhile Char.isWhitespace).reverse⟩

/-- Numeric value of a digit list, most significant first. -/
def digitsToNat (l : List Char) : Nat :=
  l.foldl (fun n c => 10 * n + digitVal c) 0

/-- Python `int(s)` on a signed decimal literal; `none` when `s` is not one
(the `except` path of line 51). -/
def pyInt (l : List Char) : Option Int :=
  match l with
  | '-' :: ds =>
    if !ds.isEmpty && ds.all Char.isDigit then some (-(digitsToNat ds : Int)) else none
  | ds =>
    if !ds.isEmpty && ds.all Char.isDigit then some ((digitsToNat ds : Int)) else none

/-- Acceptance of Python `float(s)` after `replace(",", ".")`: optional sign,
digits with at most one decimal point, at least one digit. Only
success/failure matters to the claims. -/
def floatOk (l : List Char) : Bool :=
  let body := match l with
    | '-' :: rest => rest
    | '+' :: rest => rest
    | rest => rest
  match body.splitOn '.' with
  | [a] => !a.isEmpty && a.all Char.isDigit
  | [a, b] => (!a.isEmpty || !b.isEmpty) && a.all Char.isDigit && b.all Char.isDigit
  | _ => false

/-- Lines 22–52 (`parse_station_record`), over the record's `§`-separated
field list: fewer than 7 fields, or a failing numeric conversion, yields
`None`; otherwise the selected fields are packaged. -/
def parse_station_record (parts : List String) : Option StationRec :=
  if parts.length < 7 then none
  else
    let lat := (parts.getD 1 ("")).data.map fun c => if c = ',' then '.' else c
    let lon := (parts.getD 2 ("")).data.map fun c => if c = ',' then '.' else c
    match floatOk lat, floatOk lon,
          pyInt (parts.getD 5 ("")).data, pyInt (parts.getD 6 ("")).data with
    | true, true, some bikes, some docks =>
      some ⟨pyStrip (parts.getD 0 ("")), pyStrip (parts.getD 3 ("")),
            ⟨lat⟩, ⟨lon⟩, bikes, docks⟩
    | _, _, _, _ => none

/-- One element of the JSON body's `d` array: either not a string (skipped at
line 69) or a `§`-record represented by its field list. -/
inductive PayloadItem
  | notStr
  | record (fields : List String)
  deriving DecidableEq, Repr

/-- The observable outcome of one fetch cycle's network interaction: an
exception (connection error, `raise_for_status`, JSON decoding), or a decoded
body whose `d` member is `payload` (`none` models a `d` that is not a list,
which lines 62–64 turn into no rows). -/
inductive FetchOutcome
  | raised (msg : String)
  | body (payload : Option (List PayloadItem))
  deriving DecidableEq, Repr

/-- Lines 54–74 (`fetch_once`): an exception propagates to the caller;
otherwise element 0 of the payload is skipped, non-strings are skipped and
unparsable records are skipped. -/
def fetch_once : FetchOutcome → Except String (List StationRec)
  | .raised m => .error m
  | .body none => .ok []
  | .body (some payload) =>
    .ok ((payload.drop 1).filterMap fun it =>
      match it with
      | .notStr => none
      | .record fields => parse_station_record fields)

/-- Lines 94–99, the polling loop (`FETCH_ONCE = "0"`): each cycle sleeps,
fetches, and writes one snapshot when rows were parsed; no handler catches an
exception, so a raising cycle ends the process. The result is the list of
snapshots written, paired with the escaping error message if one ended the
loop. -/
def pollLoop : List FetchOutcome → List (List StationRec) × Option String
  | [] => ([], none)
  | o :: rest =>
    match fetch_once o with
    | .error m => ([], some m)
    | .ok rows =>
      let tail := pollLoop rest
      (if rows.isEmpty then tail.1 else rows :: tail.1, tail.2)

/-- The loop as the spec claim describes it: a failing cycle is logged and
skipped and the loop continues with the next cycle. Stated only for
comparison with `pollLoop`. -/
def pollLoop_claim_rule : List FetchOutcome → List (List StationRec)
  | [] => []
  | o :: rest =>
    match fetch_once o with
    | .error _ => pollLoop_claim_rule rest
    | .ok rows =>
      if rows.isEmpty then pollLoop_claim_rule rest
      else rows :: pollLoop_claim_rule rest

end CSS

namespace CSS

/-! ## Theorems: generic groupby facts -/

theorem sumKey_cons {κ : Type} [DecidableEq κ] (x : κ × Int) (l : List (κ × Int)) (k : κ) :
    sumKey (x :: l) k = (if x.1 = k then x.2 else 0) + sumKey l k := by
  by_cases h : x.1 = k <;> simp [sumKey, List.filter_cons, h]

theorem mem_groupSum_eq_sumKey {κ : Type} [DecidableEq κ]
    {l : List (κ × Int)} {k : κ} {v : Int}
    (h : (k, v) ∈ groupSum l) : v = sumKey l k := by
  rcases List.mem_map.mp h with ⟨k', _, hk⟩
  have h1 : k' = k := congrArg Prod.fst hk
  have h2 : sumKey l k' = v := congrArg Prod.snd hk
  rw [h1] at h2
  exact h2.symm

theorem sumP_cons {κ : Type} [DecidableEq κ] (x : κ × Int) (l : List (κ × Int)) (p : κ → Bool) :
    sumP (x :: l) p = (if p x.1 then x.2 else 0) + sumP l p := by
  by_cases h : p x.1 <;> simp [sumP, List.filter_cons, h]

theorem sumP_split {κ : Type} [DecidableEq κ] (l : List (κ × Int)) (p : κ → Bool)
    (q : κ × Int → Bool) :
    sumP l p = sumP (l.filter q) p + sumP (l.filter fun x => !(q x)) p := by
  induction l with
  | nil => simp [sumP]
  | cons x l ih =>
    by_cases hq : q x = true <;> by_cases hp : p x.1 = true <;>
      simp [List.filter_cons, hq, hp, sumP_cons, ih] <;> omega

theorem sumP_filter_key {κ : Type} [DecidableEq κ] (l : List (κ × Int)) (p : κ → Bool) (k : κ) :
    sumP (l.filter fun x => decide (x.1 = k)) p = if p k then sumKey l k else 0 := by
  induction l with
  | nil => simp [sumP, sumKey]
  | cons x l ih =>
    by_cases hk : x.1 = k <;> by_cases hp : p k = true <;>
      simp [List.filter_cons, hk, hp, sumP_cons, ih, sumKey_cons]

theorem sumKey_filter_ne {κ : Type} [DecidableEq κ] (l : List (κ × Int)) {k k' : κ}
    (h : k' ≠ k) :
    sumKey (l.filter fun x => !(decide (x.1 = k))) k' = sumKey l k' := by
  induction l with
  | nil => rfl
  | cons x l ih =>
    by_cases hk : x.1 = k
    · simp [List.filter_cons, hk, sumKey_cons, ih, Ne.symm h]
    · simp [List.filter_cons, hk, sumKey_cons, ih]

theorem sum_sumKey_over_keys {κ : Type} [DecidableEq κ] (p : κ → Bool) :
    ∀ (ks : List κ) (l : List (κ × Int)), ks.Nodup → (∀ x ∈ l, x.1 ∈ ks) →
      ((ks.filter p).map (sumKey l)).sum = sumP l p := by
  intro ks
  induction ks with
  | nil =>
    intro l _ hcov
    cases l with
    | nil => simp [sumP]
    | cons x t => exact absurd (hcov x (by simp)) (List.not_mem_nil _)
  | cons k ks ih =>
    intro l hnd hcov
    rcases List.nodup_cons.mp hnd with ⟨hk_not, hnd2⟩
    have hcov2 : ∀ x ∈ l.filter fun y => !(decide (y.1 = k)), x.1 ∈ ks := by
      intro x hx
      rcases List.mem_filter.mp hx with ⟨hxl, hxne⟩
      have hne : x.1 ≠ k := by
        intro hc
        rw [hc] at hxne
        simp at hxne
      rcases List.mem_cons.mp (hcov x hxl) with hc | hc
      · exact absurd hc hne
      · exact hc
    have hIH := ih (l.filter fun y => !(decide (y.1 = k))) hnd2 hcov2
    have hmap : (ks.filter p).map (sumKey l) =
        (ks.filter p).map (sumKey (l.filter fun y => !(decide (y.1 = k)))) := by
      refine List.map_eq_map_iff.mpr fun k' hk' => ?_
      have hkne : k' ≠ k := by
        intro hc
        exact hk_not (hc ▸ (List.mem_filter.mp hk').1)
      exact (sumKey_filter_ne l hkne).symm
    have hsplit := sumP_split l p (fun x => decide (x.1 = k))
    rw [sumP_filter_key l p k] at hsplit
    rw [hsplit]
    by_cases hp : p k = true
    · rw [List.filter_cons_of_pos hp, List.map_cons, List.sum_cons, hmap, hIH]
      simp [hp]
    · rw [List.filter_cons_of_neg (by simp [hp]), hmap, hIH]
      simp [hp]

/-- Aggregating first and then summing a selection of groups gives the same
total as summing the selected rows directly. -/
theorem sumP_groupSum {κ : Type} [DecidableEq κ] (l : List (κ × Int)) (p : κ → Bool) :
    sumP (groupSum l) p = sumP l p := by
  have hfil : ((keysOf l).map fun k => (k, sumKey l k)).filter
      (fun x : κ × Int => p x.1) =
      ((keysOf l).filter fun k => p k).map fun k => (k, sumKey l k) := by
    rw [List.filter_map]
    rfl
  have hcov : ∀ x ∈ l, x.1 ∈ keysOf l := fun x hx =>
    List.mem_dedup.mpr (List.mem_map_of_mem Prod.fst hx)
  calc sumP (groupSum l) p
      = (((keysOf l).filter fun k => p k).map fun k => sumKey l k).sum := by
        simp only [sumP, groupSum, hfil, List.map_map]
        rfl
    _ = sumP l p := sum_sumKey_over_keys p (keysOf l) l (List.nodup_dedup _) hcov

theorem sumP_map_rekey {κ κ' : Type} [DecidableEq κ] [DecidableEq κ']
    (f : κ → κ') (l : List (κ × Int)) (p : κ' → Bool) :
    sumP (l.map fun x => (f x.1, x.2)) p = sumP l fun k => p (f k) := by
  induction l with
  | nil => simp [sumP]
  | cons x l ih => simp [sumP_cons, ih]

theorem sumP_congr {κ : Type} [DecidableEq κ] (l : List (κ × Int)) {p q : κ → Bool}
    (h : ∀ k, p k = q k) : sumP l p = sumP l q := by
  rw [show p = q from funext h]

theorem sumKey_eq_sumP {κ : Type} [DecidableEq κ] (l : List (κ × Int)) (k : κ) :
    sumKey l k = sumP l fun j => decide (j = k) := rfl

theorem mem_groupSum_rekey {κ κ' : Type} [DecidableEq κ] [DecidableEq κ']
    (f : κ → κ') {l : List (κ × Int)} {k : κ'} {v : Int}
    (h : (k, v) ∈ groupSum (l.map fun x => (f x.1, x.2))) :
    v = sumP l fun j => decide (f j = k) :=
  calc v = sumKey (l.map fun x => (f x.1, x.2)) k := mem_groupSum_eq_sumKey h
    _ = sumP (l.map fun x => (f x.1, x.2)) (fun j => decide (j = k)) :=
        sumKey_eq_sumP _ _
    _ = sumP l fun j => decide (f j = k) := sumP_map_rekey f l _

theorem sumP_snapRows (rows : List SnapRow) (s d : Nat) :
    sumP (rows.map fun r => ((r.station_id, r.date, r.hour), r.pickup))
      (fun k => decide (k.1 = s ∧ k.2.1 = d)) =
    ((rows.filter fun r => r.station_id = s ∧ r.date = d).map SnapRow.pickup).sum := by
  induction rows with
  | nil => simp [sumP]
  | cons r rows ih =>
    simp only [Bool.decide_and] at ih
    by_cases hc : r.station_id = s ∧ r.date = d <;>
      simp [sumP_cons, List.filter_cons, hc, ih]

/-! ## Theorems: trip inference (`snapshots_to_trips.py`) -/

/-- C8: in the trip-inference step, a bike-count change with `|delta| > 6`
is treated as rebalancing and contributes zero to both the pickup and the
return counts, while a change with `|delta| ≤ 6` is counted in full. -/
theorem rebalancing_threshold (delta : Int) :
    (6 < delta.natAbs → pickup delta = 0 ∧ ret delta = 0) ∧
    (delta.natAbs ≤ 6 → pickup delta = max (-delta) 0 ∧ ret delta = max delta 0) := by
  constructor
  · intro h
    simp [pickup, ret, rebalanced, h]
  · intro h
    have hno : ¬ 6 < delta.natAbs := by omega
    simp [pickup, ret, rebalanced, hno]

/-- Witness for C8: a delta of 9 is filtered out entirely, a delta of −4 and
a delta of 6 are counted in full. -/
theorem rebalancing_threshold_witness :
    pickup 9 = 0 ∧ ret 9 = 0 ∧ pickup (-4) = 4 ∧ ret 6 = 6 :=
  ⟨((rebalancing_threshold 9).1 (by decide)).1,
   ((rebalancing_threshold 9).1 (by decide)).2,
   (((rebalancing_threshold (-4)).2 (by decide)).1).trans (by decide),
   (((rebalancing_threshold 6).2 (by decide)).2).trans (by decide)⟩

/-- C10: for every snapshot row, with `delta` the stored (rebalancing-
filtered) bike-count change, `pickup = max(-delta, 0)` and
`return = max(delta, 0)`: both are non-negative, at most one of them is
nonzero, and `return - pickup = delta`, so a single change is never counted
as both a pickup and a return. -/
theorem pickup_return_decomposition (delta : Int) :
    pickup delta = max (-(rebalanced delta)) 0 ∧
    ret delta = max (rebalanced delta) 0 ∧
    0 ≤ pickup delta ∧ 0 ≤ ret delta ∧
    (pickup delta = 0 ∨ ret delta = 0) ∧
    ret delta - pickup delta = rebalanced delta := by
  refine ⟨rfl, rfl, le_max_right _ _, le_max_right _ _, ?_, ?_⟩
  · rcases le_total 0 (rebalanced delta) with h | h
    · left
      simp only [pickup]
      exact max_eq_right (by omega)
    · right
      simp only [ret]
      exact max_eq_right h
  · rcases le_total 0 (rebalanced delta) with h | h
    · rw [ret, pickup, max_eq_left h, max_eq_right (by omega : -(rebalanced delta) ≤ 0)]
      omega
    · rw [ret, pickup, max_eq_right h, max_eq_left (by omega : (0:Int) ≤ -(rebalanced delta))]
      omega

/-- C9: for every station and date, the daily trip total in the
station-day table equals the sum over all hours of the hourly trip counts in
the station-hour table for that station and date, which is also the directly
computed daily total over the underlying rows. -/
theorem daily_total_eq_sum_hourly (rows : List SnapRow) (s d : Nat) (v : Int)
    (h : ((s, d), v) ∈ station_day rows) :
    v = (((station_hour rows).filter fun p => p.1.1 = s ∧ p.1.2.1 = d).map
          Prod.snd).sum ∧
    v = ((rows.filter fun r => r.station_id = s ∧ r.date = d).map
          SnapRow.pickup).sum := by
  have hv : v = sumP (station_hour rows)
      fun j => decide ((j.1, j.2.1) = ((s, d) : Nat × Nat)) :=
    mem_groupSum_rekey (fun j : Nat × Nat × Nat => (j.1, j.2.1)) h
  have hpred : ∀ j : Nat × Nat × Nat, (decide ((j.1, j.2.1) = ((s, d) : Nat × Nat))) =
      decide (j.1 = s ∧ j.2.1 = d) := by
    intro j
    by_cases h1 : j.1 = s <;> by_cases h2 : j.2.1 = d <;> simp [Prod.ext_iff, h1, h2]
  have hA : v = sumP (station_hour rows) fun j => decide (j.1 = s ∧ j.2.1 = d) :=
    hv.trans (sumP_congr _ hpred)
  exact ⟨hA, hA.trans ((sumP_groupSum _ _).trans (sumP_snapRows rows s d))⟩

/-- Witness for C9 on three concrete snapshot rows: station 1 has hourly
totals 2 and 3 on date 5, and its daily row carries the total 5. -/
theorem daily_total_eq_sum_hourly_witness :
    ((1, 5), (5 : Int)) ∈ station_day [⟨1, 5, 8, 2⟩, ⟨1, 5, 9, 3⟩, ⟨1, 6, 8, 1⟩] ∧
    ((5 : Int) =
      (((station_hour [⟨1, 5, 8, 2⟩, ⟨1, 5, 9, 3⟩, ⟨1, 6, 8, 1⟩]).filter
          fun p => p.1.1 = 1 ∧ p.1.2.1 = 5).map Prod.snd).sum ∧
     (5 : Int) =
      (([⟨1, 5, 8, 2⟩, ⟨1, 5, 9, 3⟩, ⟨1, 6, 8, 1⟩].filter
          fun r => r.station_id = 1 ∧ r.date = 5).map SnapRow.pickup).sum) :=
  ⟨by decide, daily_total_eq_sum_hourly _ 1 5 5 (by decide)⟩

/-! ## Theorems: service-calendar expansion (`gtfs_to_station_hour.py`) -/

/-- C2 counterexample: with an empty weekly calendar and both an add and a
remove exception for service 5 on day 10, the code reports the service
inactive, while the claimed rule (an add wins regardless) reports it
active. -/
theorem add_remove_conflict :
    active_services_on [] [⟨5, 10, 1⟩, ⟨5, 10, 2⟩] 10 5 = false ∧
    active_claim_rule [] [⟨5, 10, 1⟩, ⟨5, 10, 2⟩] 10 5 = true := by
  decide

/-- C2 as amended: the expander reports `sid` active on `day` iff (its weekly
pattern flags the weekday and the date lies in the validity range, or an add
exception exists for that service and date) and no remove exception exists
for that service and date — a remove overrides an add on the same date. -/
theorem active_services_on_iff (cal : List CalRow) (cald : List CaldRow) (day sid : Nat) :
    active_services_on cal cald day sid = true ↔
      (((∃ r ∈ cal, r.service_id = sid ∧ weekdayFlag r (day % 7) = 1 ∧
            r.start_date ≤ day ∧ day ≤ r.end_date) ∨
         ∃ e ∈ cald, e.service_id = sid ∧ e.date = day ∧ e.exception_type = 1) ∧
        ¬ ∃ e ∈ cald, e.service_id = sid ∧ e.date = day ∧ e.exception_type = 2) := by
  simp [active_services_on, List.any_eq_true, and_assoc]

/-! ## Theorems: hourly departure aggregation (`gtfs_to_station_hour.py`) -/

/-- C5: a missing or malformed departure-time value (not matching
`^\d{1,2}:\d{2}(:\d{2})?$`) parses to `none` — never to a substitute hour —
and adding such a row to the stop-times leaves every per-(stop, hour)
departure count unchanged. -/
theorem malformed_departure_dropped (stt : List (Nat × Option String)) (stop : Nat)
    (t : Option String)
    (h : t = none ∨ ∃ s, t = some s ∧ matchesTimeRe s.toList = false) :
    parseDeparture t = none ∧
    groupCount (sttParsed ((stop, t) :: stt)) = groupCount (sttParsed stt) := by
  have hp : parseDeparture t = none := by
    rcases h with rfl | ⟨s, rfl, hs⟩
    · rfl
    · have hs2 : matchesTimeRe s.data = false := hs
      simp [parseDeparture, String.toList, hs2]
  refine ⟨hp, ?_⟩
  simp [sttParsed, List.filterMap_cons, hp]

/-- Witness for C5: the single-digit-minute string "7:5" fails the regex, is
not coerced to any hour, and changes no departure count. -/
theorem malformed_departure_dropped_witness :
    parseDeparture (some ("7:5")) = none ∧
    groupCount (sttParsed [(3, some ("7:5")), (4, some ("08:15"))]) =
      groupCount (sttParsed [(4, some ("08:15"))]) :=
  malformed_departure_dropped [(4, some ("08:15"))] 3 (some ("7:5"))
    (Or.inr ⟨"7:5", rfl, by decide⟩)

/-! ## Theorems: global GTFS date range (`gtfs_to_station_hour.py`) -/

theorem foldl_min_le_init (xs : List Nat) (a : Nat) : xs.foldl Nat.min a ≤ a := by
  induction xs generalizing a with
  | nil => exact le_refl a
  | cons x xs ih => exact le_trans (ih (Nat.min a x)) (Nat.min_le_left a x)

theorem foldl_min_le_mem (xs : List Nat) :
    ∀ a x : Nat, x ∈ xs → xs.foldl Nat.min a ≤ x := by
  induction xs with
  | nil => intro a x hx; cases hx
  | cons y xs ih =>
    intro a x hx
    rcases List.mem_cons.mp hx with rfl | hmem
    · exact le_trans (foldl_min_le_init xs (Nat.min a x)) (Nat.min_le_right a x)
    · exact ih (Nat.min a y) x hmem

theorem foldl_min_mem (xs : List Nat) :
    ∀ a : Nat, xs.foldl Nat.min a = a ∨ xs.foldl Nat.min a ∈ xs := by
  induction xs with
  | nil =>
    intro a
    left
    rfl
  | cons y xs ih =>
    intro a
    rcases ih (Nat.min a y) with h | h
    · rcases Nat.le_total a y with hay | hay
      · left
        show xs.foldl Nat.min (Nat.min a y) = a
        rw [h]
        exact min_eq_left hay
      · right
        show xs.foldl Nat.min (Nat.min a y) ∈ y :: xs
        have h3 : Nat.min a y = y := min_eq_right hay
        rw [h, h3]
        exact List.mem_cons_self y xs
    · right
      exact List.mem_cons_of_mem y h

theorem foldl_max_init_le (xs : List Nat) (a : Nat) : a ≤ xs.foldl Nat.max a := by
  induction xs generalizing a with
  | nil => exact le_refl a
  | cons x xs ih => exact le_trans (Nat.le_max_left a x) (ih (Nat.max a x))

theorem foldl_max_mem_le (xs : List Nat) :
    ∀ a x : Nat, x ∈ xs → x ≤ xs.foldl Nat.max a := by
  induction xs with
  | nil => intro a x hx; cases hx
  | cons y xs ih =>
    intro a x hx
    rcases List.mem_cons.mp hx with rfl | hmem
    · exact le_trans (Nat.le_max_right a x) (foldl_max_init_le xs (Nat.max a x))
    · exact ih (Nat.max a y) x hmem

theorem foldl_max_mem (xs : List Nat) :
    ∀ a : Nat, xs.foldl Nat.max a = a ∨ xs.foldl Nat.max a ∈ xs := by
  induction xs with
  | nil =>
    intro a
    left
    rfl
  | cons y xs ih =>
    intro a
    rcases ih (Nat.max a y) with h | h
    · rcases Nat.le_total a y with hay | hay
      · right
        show xs.foldl Nat.max (Nat.max a y) ∈ y :: xs
        have h3 : Nat.max a y = y := max_eq_right hay
        rw [h, h3]
        exact List.mem_cons_self y xs
      · left
        show xs.foldl Nat.max (Nat.max a y) = a
        rw [h]
        exact max_eq_left hay
    · right
      exact List.mem_cons_of_mem y h

/-- Characterisation of `colMin`: its value is an attained lower bound. -/
theorem colMin_spec {l : List Nat} {m : Nat} (h : colMin l = some m) :
    m ∈ l ∧ ∀ x ∈ l, m ≤ x := by
  cases l with
  | nil => cases h
  | cons x xs =>
    simp only [colMin, Option.some.injEq] at h
    subst h
    refine ⟨?_, ?_⟩
    · rcases foldl_min_mem xs x with h2 | h2
      · rw [h2]
        exact List.mem_cons_self x xs
      · exact List.mem_cons_of_mem x h2
    · intro y hy
      rcases List.mem_cons.mp hy with rfl | hmem
      · exact foldl_min_le_init xs y
      · exact foldl_min_le_mem xs x y hmem

/-- Characterisation of `colMax`: its value is an attained upper bound. -/
theorem colMax_spec {l : List Nat} {m : Nat} (h : colMax l = some m) :
    m ∈ l ∧ ∀ x ∈ l, x ≤ m := by
  cases l with
  | nil => cases h
  | cons x xs =>
    simp only [colMax, Option.some.injEq] at h
    subst h
    refine ⟨?_, ?_⟩
    · rcases foldl_max_mem xs x with h2 | h2
      · rw [h2]
        exact List.mem_cons_self x xs
      · exact List.mem_cons_of_mem x h2
    · intro y hy
      rcases List.mem_cons.mp hy with rfl | hmem
      · exact foldl_max_init_le xs y
      · exact foldl_max_mem_le xs x y hmem

/-- Sequencing a list of options succeeds exactly onto its contents. -/
theorem optList_spec {α : Type} :
    ∀ (l : List (Option α)) (xs : List α), optList l = some xs →
      (∀ o ∈ l, ∃ x ∈ xs, o = some x) ∧ ∀ x ∈ xs, some x ∈ l := by
  intro l
  induction l with
  | nil =>
    intro xs h
    simp only [optList, Option.some.injEq] at h
    subst h
    exact ⟨fun o ho => absurd ho (List.not_mem_nil o), fun x hx => absurd hx (List.not_mem_nil x)⟩
  | cons o l ih =>
    intro xs h
    cases o with
    | none => simp [optList] at h
    | some x =>
      simp only [optList] at h
      cases hrec : optList l with
      | none =>
        rw [hrec] at h
        cases h
      | some ys =>
        rw [hrec] at h
        injection h with h
        subst h
        obtain ⟨h1, h2⟩ := ih ys hrec
        refine ⟨?_, ?_⟩
        · intro o ho
          rcases List.mem_cons.mp ho with rfl | hmem
          · exact ⟨x, List.mem_cons_self x ys, rfl⟩
          · obtain ⟨y, hy, rfl⟩ := h1 o hmem
            exact ⟨y, List.mem_cons_of_mem x hy, rfl⟩
        · intro y hy
          rcases List.mem_cons.mp hy with rfl | hmem
          · exact List.mem_cons_self _ _
          · exact List.mem_cons_of_mem _ (h2 y hmem)

theorem mem_date_range_list {d0 d1 day : Nat} (h : day ∈ date_range_list d0 d1) :
    d0 ≤ day ∧ day ≤ d1 := by
  simp only [date_range_list, List.mem_map, List.mem_range] at h
  obtain ⟨i, hi, rfl⟩ := h
  omega

theorem rowsForDay_date (g : GtfsPart) (day : Nat) (row : FeatRow)
    (h : row ∈ rowsForDay g day) : row.date = day := by
  simp only [rowsForDay, List.mem_map] at h
  obtain ⟨p, _, rfl⟩ := h
  rfl

/-- Unpacking of a defined `gtfs_date_range` result into its components. -/
theorem gtfs_date_range_parts (parts : List GtfsPart) (d0 d1 : Nat)
    (h : gtfs_date_range parts = some (d0, d1)) :
    ∃ starts ends,
      optList (parts.map fun g => colMin (g.cal.map CalRow.start_date)) = some starts ∧
      optList (parts.map fun g => colMax (g.cal.map CalRow.end_date)) = some ends ∧
      colMax starts = some d0 ∧ colMin ends = some d1 := by
  unfold gtfs_date_range at h
  split at h
  all_goals try exact Option.noConfusion h
  rename_i starts ends hS hE
  split at h
  all_goals try exact Option.noConfusion h
  rename_i a b hD0 hD1
  simp only [Option.some.injEq, Prod.mk.injEq] at h
  obtain ⟨rfl, rfl⟩ := h
  exact ⟨starts, ends, hS, hE, hD0, hD1⟩

/-- C6: when the global GTFS date range is defined, its start is the maximum
of the partition start dates, its end is the minimum of the partition end
dates (the intersection of the partition ranges), and every generated feature
row carries a date inside `[d0, d1]`. -/
theorem date_range_is_intersection (parts : List GtfsPart) (d0 d1 : Nat)
    (h : gtfs_date_range parts = some (d0, d1)) :
    (∀ g ∈ parts, ∃ s, colMin (g.cal.map CalRow.start_date) = some s ∧ s ≤ d0) ∧
    (∃ g ∈ parts, colMin (g.cal.map CalRow.start_date) = some d0) ∧
    (∀ g ∈ parts, ∃ e, colMax (g.cal.map CalRow.end_date) = some e ∧ d1 ≤ e) ∧
    (∃ g ∈ parts, colMax (g.cal.map CalRow.end_date) = some d1) ∧
    ∀ row ∈ allFeatureRows parts, d0 ≤ row.date ∧ row.date ≤ d1 := by
  obtain ⟨starts, ends, hS, hE, hD0, hD1⟩ := gtfs_date_range_parts parts d0 d1 h
  obtain ⟨hSmem, hSub⟩ := colMax_spec hD0
  obtain ⟨hEmem, hElb⟩ := colMin_spec hD1
  obtain ⟨hSfwd, hSbwd⟩ := optList_spec _ starts hS
  obtain ⟨hEfwd, hEbwd⟩ := optList_spec _ ends hE
  refine ⟨?_, ?_, ?_, ?_, ?_⟩
  · intro g hg
    obtain ⟨s, hs, heq⟩ := hSfwd _ (List.mem_map_of_mem _ hg)
    exact ⟨s, heq, hSub s hs⟩
  · have hmm := hSbwd _ hSmem
    obtain ⟨g, hg, heq⟩ := List.mem_map.mp hmm
    exact ⟨g, hg, heq⟩
  · intro g hg
    obtain ⟨e, he, heq⟩ := hEfwd _ (List.mem_map_of_mem _ hg)
    exact ⟨e, heq, hElb e he⟩
  · have hmm := hEbwd _ hEmem
    obtain ⟨g, hg, heq⟩ := List.mem_map.mp hmm
    exact ⟨g, hg, heq⟩
  · intro row hrow
    simp only [allFeatureRows, h] at hrow
    obtain ⟨day, hday, hrow2⟩ := List.mem_flatMap.mp hrow
    obtain ⟨g, hgmem, hrow3⟩ := List.mem_flatMap.mp hrow2
    rw [rowsForDay_date g day row hrow3]
    exact mem_date_range_list hday

/-- Witness for C6: two one-service partitions with ranges [10, 20] and
[12, 18] intersect to [12, 18], attained by the second partition, and the
generated rows (here none, the partitions carrying no trips) all fall inside
it. -/
theorem date_range_is_intersection_witness :
    (∃ g ∈ ([⟨[⟨1, 1, 1, 1, 1, 1, 1, 1, 10, 20⟩], [], [], [], []⟩,
             ⟨[⟨2, 1, 1, 1, 1, 1, 1, 1, 12, 18⟩], [], [], [], []⟩] : List GtfsPart),
        colMin (g.cal.map CalRow.start_date) = some 12) ∧
    ∀ row ∈ allFeatureRows
        ([⟨[⟨1, 1, 1, 1, 1, 1, 1, 1, 10, 20⟩], [], [], [], []⟩,
          ⟨[⟨2, 1, 1, 1, 1, 1, 1, 1, 12, 18⟩], [], [], [], []⟩] : List GtfsPart),
      12 ≤ row.date ∧ row.date ≤ 18 :=
  ⟨(date_range_is_intersection _ 12 18 (by decide)).2.1,
   (date_range_is_intersection _ 12 18 (by decide)).2.2.2.2⟩

/-! ## Theorems: hourly model-dataset merge (`merge_hourly_features.py`) -/

/-- C1 evaluation: with unique `(station_id, date, hour)` keys in the outcome
table, unique keys in the GTFS table and a unique station index, the merged
hourly dataset still carries the key (1, 10, 8) twice — the join on
`(station_id, hour)` without `date` duplicates keys as soon as the GTFS table
covers a second date. -/
theorem merged_hourly_duplicate_key :
    (([⟨1, 10, 8, 5⟩] : List HRow).map fun r => (r.station_id, r.date, r.hour)).Nodup ∧
    (([⟨1, 10, 8, 2⟩, ⟨1, 11, 8, 3⟩] : List XgRow).map
      fun x => (x.station_id, x.date, x.hour)).Nodup ∧
    (([⟨1, 0, 0⟩] : List SRow).map SRow.station_id).Nodup ∧
    (model_hour_dataset [⟨1, 10, 8, 5⟩] [⟨1, 10, 8, 2⟩, ⟨1, 11, 8, 3⟩] [⟨1, 0, 0⟩]).map
      outKey = [(1, 10, 8), (1, 10, 8)] ∧
    ¬ ((model_hour_dataset [⟨1, 10, 8, 5⟩] [⟨1, 10, 8, 2⟩, ⟨1, 11, 8, 3⟩] [⟨1, 0, 0⟩]).map
      outKey).Nodup := by
  decide

/-! ## Theorems: spatial accessibility build (`build_datasets.py`) -/

/-- C3 evaluation: a station (id 1) whose buffer contains none of the stops
gets `stops_300m = 1` — the null placeholder row of the left spatial join is
counted by `size` — and `routes_300m = 0`, not the `stops = 0` the claim
requires. -/
theorem spatial_zero_stops_eval :
    spatial_agg [1] [⟨7, 3⟩] (fun _ _ => false) = [(1, 1, 0)] := by
  decide

/-! ## Theorems: intermodality index (`analysis_suite.py`) -/

/-- C4: on every row where both inputs are present, the intermodality index
equals `stops + 0.5 * routes` exactly. -/
theorem intermodal_formula (r : AccRow) (s q : Rat) (hs : r.stops = some s)
    (hr : r.routes = some q) :
    idx_intermodal r = s + (1 / 2) * q := by
  simp [idx_intermodal, hs, hr]

/-- Witness for C4: three stops and four routes give index 5. -/
theorem intermodal_formula_witness :
    (AccRow.mk (some 3) (some 4)).stops = some 3 ∧
    (AccRow.mk (some 3) (some 4)).routes = some 4 ∧
    idx_intermodal (AccRow.mk (some 3) (some 4)) = 3 + (1 / 2) * 4 :=
  ⟨rfl, rfl, intermodal_formula (AccRow.mk (some 3) (some 4)) 3 4 rfl rfl⟩

/-! ## Theorems: live-status polling loop (`bicincitta_fetch_json.py`) -/

/-- C7 counterexample: a network error in the first cycle ends the polling
loop — the second, healthy cycle is never fetched and no snapshot at all is
written — while the claimed rule would have skipped the failing cycle and
written the second cycle's snapshot. -/
theorem poll_error_kills_loop :
    pollLoop [FetchOutcome.raised ("boom"),
      FetchOutcome.body (some [PayloadItem.record [""],
        PayloadItem.record ["12", "46,06", "11,12", " Bren Center ", "x", "5", "9"]])] =
      ([], some ("boom")) ∧
    pollLoop_claim_rule [FetchOutcome.raised ("boom"),
      FetchOutcome.body (some [PayloadItem.record [""],
        PayloadItem.record ["12", "46,06", "11,12", " Bren Center ", "x", "5", "9"]])] =
      [[⟨"12", "Bren Center", "46.06", "11.12", 5, 9⟩]] := by
  decide

/-- C7 as amended: a cycle whose fetch raises writes no snapshot and
terminates the loop (nothing catches the exception); a cycle that parses no
rows writes nothing and the loop continues; a cycle with rows writes exactly
one snapshot. -/
theorem poll_cycle_behaviour (o : FetchOutcome) (rest : List FetchOutcome) :
    (∀ m, fetch_once o = Except.error m → pollLoop (o :: rest) = ([], some m)) ∧
    (fetch_once o = Except.ok [] → pollLoop (o :: rest) = pollLoop rest) ∧
    (∀ rows, fetch_once o = Except.ok rows → rows ≠ [] →
      pollLoop (o :: rest) = (rows :: (pollLoop rest).1, (pollLoop rest).2)) := by
  refine ⟨fun m hm => ?_, fun h0 => ?_, fun rows hr hne => ?_⟩
  · simp [pollLoop, hm]
  · simp [pollLoop, h0]
  · cases rows with
    | nil => exact absurd rfl hne
    | cons r rs => simp [pollLoop, hr]

/-- Witness for C7's amended statement: a raising cycle yields the error, no
snapshot, and a terminated loop. -/
theorem poll_cycle_behaviour_witness :
    fetch_once (FetchOutcome.raised ("neterr")) = Except.error ("neterr") ∧
    pollLoop [FetchOutcome.raised ("neterr")] = ([], some ("neterr")) :=
  ⟨rfl, (poll_cycle_behaviour (FetchOutcome.raised ("neterr")) []).1 ("neterr") rfl⟩

end CSS
